import Mathlib

/-!
Verification development for the Gibbs sampling Ising model program
(`src/GibbsSamplingIsing.cpp`).  The program is embedded shallowly:
the RNG is an abstract stream of naturals, the `std::map`-based graph is a
function from vertex ids to optional neighbor lists (mirroring `operator[]`
insert-on-miss semantics), `vector<int>` states are lists of integers, and
`exit(0)` paths are `Except.error` results carrying the printed message.
Doubles in the logistic update are modelled as real numbers.
-/

namespace GibbsIsing

/-- Stream of values produced by successive calls to `rand()`. -/
abbrev Rng := Nat → Nat

/-- Advance the random stream past the first `k` draws. -/
def Rng.shift (r : Rng) (k : Nat) : Rng := fun n => r (n + k)

/-! ### Compile-time constants of the program -/

def RAND_MAX : Nat := 2147483647

def HOGWILD : Nat := 1

def N_THREADS : Nat := 1

def N : Nat := 100 * 100

def DELTA : Nat := 4

noncomputable def BETA : ℝ := 1.29

def N_ITERATIONS : Nat := 10000

def MAX_EDGES : Nat := N * N

def MAX_EDGE_INSERTION_TRIES : Nat := N * N

/-! ### The graph: `typedef map<int, vector<int> > Graph;` -/

/-- A `std::map<int, vector<int>>`: a finite map from vertex ids to
neighbor lists.  `none` means the key is absent. -/
abbrev Graph := Nat → Option (List Nat)

def emptyGraph : Graph := fun _ => none

/-- C++ `g[k]` (`operator[]`): returns the stored list if the key exists,
otherwise inserts the key with an empty list and returns that.  The first
component is the (possibly grown) map, the second the list read. -/
def gindex (g : Graph) (k : Nat) : Graph × List Nat :=
  match g k with
  | some l => (g, l)
  | none => (fun j => if j = k then some [] else g j, [])

/-- Store list `l` at key `k`. -/
def gwrite (g : Graph) (k : Nat) (l : List Nat) : Graph :=
  fun j => if j = k then some l else g j

/-- C++ `g[k] = l;`: `operator[]` (insert-if-missing) followed by assignment. -/
def gassign (g : Graph) (k : Nat) (l : List Nat) : Graph :=
  gwrite (gindex g k).1 k l

/-- C++ `g[k].push_back(x);`. -/
def gpush (g : Graph) (k x : Nat) : Graph :=
  let p := gindex g k
  gwrite p.1 k (p.2 ++ [x])

/-- The neighbor list of `k` as read through `operator[]` (empty when the
key is absent). -/
def neighbors (g : Graph) (k : Nat) : List Nat := (g k).getD []

/-- `g[k].size()`. -/
def degree (g : Graph) (k : Nat) : Nat := (neighbors g k).length

/-- The two symmetric `push_back` calls performed for each inserted edge:
`g[a].push_back(b); g[b].push_back(a);`. -/
def addEdgeBoth (g : Graph) (a b : Nat) : Graph :=
  gpush (gpush g a b) b a

/-- The vertex-initialization loop `for i in [0,n): g[i] = vector<int>();`. -/
def initVertices (n : Nat) : Graph :=
  (List.range n).foldl (fun g i => gassign g i []) emptyGraph

/-! ### `Generate2DIsingModelGraph` -/

/-- Body of the double loop of `Generate2DIsingModelGraph` for cell `(i, j)`:
conditionally connect to the bottom neighbor, then to the right neighbor. -/
def cellStep (length : Nat) (g : Graph) (i j : Nat) : Graph :=
  let cur_index := i * length + j
  let g1 := if i + 1 < length then
      addEdgeBoth g cur_index ((i + 1) * length + j)
    else g
  if j + 1 < length then
    addEdgeBoth g1 cur_index (i * length + j + 1)
  else g1

def Generate2DIsingModelGraph (n delta : Nat) : Except String Graph :=
  if delta ≠ 4 then
    .error "Error: For 2D Ising model delta must be 4."
  else if Nat.sqrt n * Nat.sqrt n ≠ n then
    .error "Error: For 2D Ising model N must be a square."
  else
    let length := Nat.sqrt n
    .ok ((List.range length).foldl
      (fun g i => (List.range length).foldl (fun g j => cellStep length g i j) g)
      (initVertices n))

/-! ### `GenerateRandomIsingModelGraph` -/

/-- Outcome of the inner `while` loop searching for an insertable edge:
either a valid pair of endpoints was found, or the retry counter reached
`MAX_EDGE_INSERTION_TRIES` and the function returns the graph built so far. -/
inductive FindResult where
  | found (v1 v2 : Nat) (rng : Rng)
  | giveUp (rng : Rng)

/-- The `while` condition: the candidate edge is rejected when it is a
self-loop or either endpoint already has `delta` neighbors. -/
def edgeBlocked (g : Graph) (delta v1 v2 : Nat) : Prop :=
  v1 = v2 ∨ delta ≤ degree g v1 ∨ delta ≤ degree g v2

instance (g : Graph) (delta v1 v2 : Nat) : Decidable (edgeBlocked g delta v1 v2) := by
  unfold edgeBlocked; infer_instance

/-- The inner `while` loop of `GenerateRandomIsingModelGraph`: while the
candidate pair is blocked, redraw both endpoints; after the redraw, if the
(pre-increment) retry counter has reached `maxTries`, give up. -/
def findEdge (n delta maxTries : Nat) (g : Graph) (v1 v2 nTries : Nat)
    (rng : Rng) : FindResult :=
  if edgeBlocked g delta v1 v2 then
    let a := rng 0 % n
    let b := rng 1 % n
    if h : maxTries ≤ nTries then .giveUp (rng.shift 2)
    else findEdge n delta maxTries g a b (nTries + 1) (rng.shift 2)
  else .found v1 v2 rng
termination_by maxTries - nTries
decreasing_by omega

/-- Number of times the body (condition test plus possible redraw) of the
inner `while` loop executes; mirrors the recursion of `findEdge`. -/
def findEdgeSteps (n delta maxTries : Nat) (g : Graph) (v1 v2 nTries : Nat)
    (rng : Rng) : Nat :=
  if edgeBlocked g delta v1 v2 then
    let a := rng 0 % n
    let b := rng 1 % n
    if h : maxTries ≤ nTries then 1
    else 1 + findEdgeSteps n delta maxTries g a b (nTries + 1) (rng.shift 2)
  else 1
termination_by maxTries - nTries
decreasing_by omega

/-- The outer `for` loop of `GenerateRandomIsingModelGraph` over
`maxEdges` edge insertions. -/
def generateRandomAux (n delta maxTries : Nat) :
    Nat → Graph → Rng → Graph × Rng
  | 0, g, rng => (g, rng)
  | m + 1, g, rng =>
    let v1 := rng 0 % n
    let v2 := rng 1 % n
    match findEdge n delta maxTries g v1 v2 0 (rng.shift 2) with
    | .found a b rng' => generateRandomAux n delta maxTries m (addEdgeBoth g a b) rng'
    | .giveUp rng' => (g, rng')

def GenerateRandomIsingModelGraph (n delta maxEdges maxTries : Nat)
    (rng : Rng) : Graph × Rng :=
  generateRandomAux n delta maxTries maxEdges (initVertices n) rng

/-! ### `GenerateIsingState` -/

def GenerateIsingState (n : Nat) (rng : Rng) : List Int × Rng :=
  ((List.range n).foldl
    (fun s i => s.set i (if rng i % 2 = 0 then 1 else -1))
    (List.replicate n 0),
   rng.shift n)

/-! ### `PartitionDatapointsForHogwild` -/

/-- Builds the access pattern `[thread][batch][state index]`: one batch per
thread holding the contiguous index range assigned to that thread. -/
def PartitionDatapointsForHogwild (n nThreads : Nat) : List (List (List Nat)) :=
  (List.range nThreads).map (fun thread =>
    let n_datapoints_per_thread := n / nThreads
    let start := n_datapoints_per_thread * thread
    let stop := if thread = nThreads - 1 then n
      else n_datapoints_per_thread * (thread + 1)
    [List.range' start (stop - start)])

/-! ### `PrintState` and `Print2DState` -/

/-- One character of the printed state: `1` prints "1", `-1` prints "0",
anything else prints "Something went wrong..." and exits. -/
def spinChar (acc : String) (x : Int) : Except String String :=
  if x = 1 then .ok (acc ++ "1")
  else if x = -1 then .ok (acc ++ "0")
  else .error "Something went wrong..."

def PrintState (state : List Int) : Except String String :=
  state.foldlM spinChar ""

def Print2DState (n delta : Nat) (state : List Int) : Except String String :=
  if delta ≠ 4 then
    .error "Error: For 2D Ising model delta must be 4."
  else if Nat.sqrt n * Nat.sqrt n ≠ n then
    .error "Error: For 2D Ising model N must be a square."
  else
    let length := Nat.sqrt n
    (List.range length).foldlM (fun acc i =>
      ((List.range length).foldlM
        (fun acc2 j => spinChar acc2 (state.getD (i * length + j) 0)) acc).map
        (fun s => s ++ "\n")) ""

/-! ### `PrintGraphStatistics` -/

/-- The three statistics printed: minimum, maximum and average degree
over vertices `0 .. n-1` (the average as an exact rational). -/
def PrintGraphStatistics (n delta : Nat) (g : Graph) : Nat × Nat × ℚ :=
  let min_degree := (List.range n).foldl (fun m i => min m (degree g i)) (delta + 1)
  let max_degree := (List.range n).foldl (fun m i => max m (degree g i)) 0
  let avg_degree := (List.range n).foldl (fun m i => m + degree g i) 0
  (min_degree, max_degree, (avg_degree : ℚ) / (n : ℚ))

/-! ### `UpdateState` -/

/-- One Gibbs update: sum the spins of the neighbors of `index` (and their
negation), form the two Boltzmann factors, and set the spin to `1` when the
uniform draw falls below `prob_1`, to `-1` otherwise.  The graph is read
through `operator[]`, so the returned graph reflects a possible
insert-on-miss. -/
noncomputable def UpdateState (g : Graph) (state : List Int) (index : Nat)
    (rng : Rng) : Graph × List Int × Rng :=
  let p := gindex g index
  let product_with_1 : Int := p.2.foldl (fun s i => s + state.getD i 0) 0
  let product_with_neg_1 : Int :=
    p.2.foldl (fun s i => s + state.getD i 0 * (-1)) 0
  let p1 : ℝ := Real.exp (BETA * (product_with_1 : ℝ))
  let p2 : ℝ := Real.exp (BETA * (product_with_neg_1 : ℝ))
  let prob_1 : ℝ := p1 / (p1 + p2)
  let selection : ℝ := (rng 0 : ℝ) / (RAND_MAX : ℝ)
  (p.1,
   if selection ≤ prob_1 then state.set index 1 else state.set index (-1),
   rng.shift 1)

/-- Sequentially apply `UpdateState` to a list of indices. -/
noncomputable def runUpdates (idxs : List Nat) (g : Graph) (s : List Int)
    (rng : Rng) : Graph × List Int × Rng :=
  idxs.foldl (fun acc i => UpdateState acc.1 acc.2.1 i acc.2.2) (g, s, rng)

/-- One outer sampling iteration: for every thread and every batch, update
each index of `pattern[thread][batch]` (sequential embedding of the
parallel-for). -/
noncomputable def runAccessPattern (pattern : List (List (List Nat)))
    (nBatches : Nat) (g : Graph) (s : List Int) (rng : Rng) :
    Graph × List Int × Rng :=
  pattern.foldl (fun acc threadPattern =>
    (List.range nBatches).foldl (fun acc batch =>
      runUpdates (threadPattern.getD batch []) acc.1 acc.2.1 acc.2.2) acc)
    (g, s, rng)

/-- The main sampling loop: each iteration prints the 2D state (terminating
the process on malformed state) and then performs one pass of updates. -/
noncomputable def samplingLoop (pattern : List (List (List Nat)))
    (nBatches : Nat) :
    Nat → Graph → List Int → Rng → List String →
      Except String (Graph × List Int × Rng × List String)
  | 0, g, s, rng, outs => .ok (g, s, rng, outs)
  | k + 1, g, s, rng, outs =>
    match Print2DState N DELTA s with
    | .error e => .error e
    | .ok line =>
      let r := runAccessPattern pattern nBatches g s rng
      samplingLoop pattern nBatches k r.1 r.2.1 r.2.2 (outs ++ [line])

/-- The whole program: generate the 2D graph, print its statistics,
generate the state, build the hogwild access pattern, and iterate.  The
command-line arguments are passed in but, as in the source, never read. -/
noncomputable def mainRun (args : List String) (rng : Rng) :
    Except String ((Nat × Nat × ℚ) × Graph × List Int × Rng × List String) :=
  match Generate2DIsingModelGraph N DELTA with
  | .error e => .error e
  | .ok g =>
    let stats := PrintGraphStatistics N DELTA g
    let sr := GenerateIsingState N rng
    let pattern := PartitionDatapointsForHogwild N N_THREADS
    let n_batches := if HOGWILD ≠ 0 then 1 else 0
    (samplingLoop pattern n_batches N_ITERATIONS g sr.1 sr.2 []).map
      (fun r => (stats, r))

/-! ### Pointwise characterization of the graph operations -/

lemma gassign_apply (g : Graph) (k : Nat) (l : List Nat) (v : Nat) :
    (gassign g k l) v = if v = k then some l else g v := by
  unfold gassign gwrite gindex
  cases h : g k with
  | some l' => by_cases hv : v = k <;> simp [hv]
  | none => by_cases hv : v = k <;> simp [hv]

lemma gpush_apply (g : Graph) (a b v : Nat) :
    (gpush g a b) v = if v = a then some (neighbors g a ++ [b]) else g v := by
  unfold gpush gwrite gindex neighbors
  cases h : g a with
  | some l' => by_cases hv : v = a <;> simp [h, hv]
  | none => by_cases hv : v = a <;> simp [h, hv]

lemma neighbors_gpush (g : Graph) (a b v : Nat) :
    neighbors (gpush g a b) v =
      if v = a then neighbors g a ++ [b] else neighbors g v := by
  unfold neighbors
  rw [gpush_apply]
  by_cases hv : v = a <;> simp [hv]
  rfl

lemma count_neighbors_gpush (g : Graph) (a b v u : Nat) :
    (neighbors (gpush g a b) v).count u =
      (neighbors g v).count u + (if v = a ∧ u = b then 1 else 0) := by
  rw [neighbors_gpush]
  by_cases hv : v = a
  · subst hv
    by_cases hu : u = b
    · subst hu; simp [List.count_append, List.count_singleton]
    · simp [List.count_append, List.count_singleton, hu, Ne.symm hu]
  · simp [hv]

lemma count_neighbors_addEdgeBoth (g : Graph) (a b v u : Nat) :
    (neighbors (addEdgeBoth g a b) v).count u =
      (neighbors g v).count u + (if v = a ∧ u = b then 1 else 0)
        + (if v = b ∧ u = a then 1 else 0) := by
  unfold addEdgeBoth
  rw [count_neighbors_gpush, count_neighbors_gpush]

lemma degree_addEdgeBoth (g : Graph) (a b v : Nat) (hab : a ≠ b) :
    degree (addEdgeBoth g a b) v =
      degree g v + (if v = a then 1 else 0) + (if v = b then 1 else 0) := by
  unfold addEdgeBoth degree
  simp only [neighbors_gpush]
  by_cases hvb : v = b <;> by_cases hva : v = a
  · exact absurd (hva.symm.trans hvb) hab
  · subst hvb; simp [Ne.symm hab, hva]
  · subst hva; simp [hvb, hab]
  · simp [hvb, hva]

/-- The `push_back` pair never removes a key. -/
lemma isSome_addEdgeBoth {g : Graph} {v : Nat} (h : (g v).isSome) (a b : Nat) :
    ((addEdgeBoth g a b) v).isSome := by
  unfold addEdgeBoth
  rw [gpush_apply]
  by_cases hvb : v = b
  · simp [hvb]
  · rw [if_neg hvb, gpush_apply]
    by_cases hva : v = a
    · simp [hva]
    · rwa [if_neg hva]

/-- After the initialization loop, every vertex below `n` is a key with an
empty neighbor list, and no other key exists. -/
lemma initVertices_apply (n : Nat) (v : Nat) :
    (initVertices n) v = if v < n then some [] else none := by
  unfold initVertices
  induction n with
  | zero => simp [emptyGraph]
  | succ m ih =>
    rw [List.range_succ, List.foldl_append]
    simp only [List.foldl_cons, List.foldl_nil]
    rw [gassign_apply, ih]
    by_cases hv : v = m
    · simp [hv]
    · rw [if_neg hv]
      by_cases hlt : v < m
      · simp [hlt, Nat.lt_succ_of_lt hlt]
      · have : ¬ v < m + 1 := by omega
        simp [hlt, this]

lemma neighbors_initVertices (n v : Nat) : neighbors (initVertices n) v = [] := by
  unfold neighbors
  rw [initVertices_apply]
  by_cases hv : v < n <;> simp [hv]

/-- Symmetry of the multigraph adjacency counts. -/
def SymmCounts (g : Graph) : Prop :=
  ∀ u v, (neighbors g v).count u = (neighbors g u).count v

lemma symmCounts_addEdgeBoth {g : Graph} (h : SymmCounts g) (a b : Nat) :
    SymmCounts (addEdgeBoth g a b) := by
  intro u v
  rw [count_neighbors_addEdgeBoth, count_neighbors_addEdgeBoth, h u v]
  split_ifs <;> omega

lemma symmCounts_initVertices (n : Nat) : SymmCounts (initVertices n) := by
  intro u v
  rw [neighbors_initVertices, neighbors_initVertices]
  simp

/-! ### State invariant -/

/-- The spin-state invariant: length `n` and every entry `±1`. -/
def ValidState (n : Nat) (s : List Int) : Prop :=
  s.length = n ∧ ∀ x ∈ s, x = 1 ∨ x = -1

instance (n : Nat) (s : List Int) : Decidable (ValidState n s) := by
  unfold ValidState; infer_instance

lemma foldl_set_range_aux (n : Nat) (f : Nat → Int) :
    ∀ k, k ≤ n →
      (List.range k).foldl (fun s i => s.set i (f i)) (List.replicate n 0) =
        (List.range k).map f ++ List.replicate (n - k) 0 := by
  intro k
  induction k with
  | zero => simp
  | succ m ih =>
    intro hk
    rw [List.range_succ, List.foldl_append, ih (by omega)]
    simp only [List.foldl_cons, List.foldl_nil]
    rw [List.set_append]
    have hlen : ((List.range m).map f).length = m := by simp
    rw [hlen, if_neg (by omega : ¬ m < m), Nat.sub_self]
    have hnm : n - m = (n - (m + 1)) + 1 := by omega
    rw [hnm, List.replicate_succ, List.set_cons_zero]
    simp [List.range_succ]

lemma generateIsingState_eq (n : Nat) (rng : Rng) :
    (GenerateIsingState n rng).1 =
      (List.range n).map (fun i => if rng i % 2 = 0 then (1 : Int) else -1) := by
  unfold GenerateIsingState
  simpa using foldl_set_range_aux n _ n le_rfl

lemma validState_set {n : Nat} {s : List Int} {i : Nat} {v : Int}
    (hv : v = 1 ∨ v = -1) (hs : ValidState n s) : ValidState n (s.set i v) := by
  obtain ⟨hlen, hmem⟩ := hs
  refine ⟨by simpa using hlen, ?_⟩
  intro x hx
  rcases List.mem_or_eq_of_mem_set hx with h | h
  · exact hmem x h
  · subst h; exact hv

lemma validState_updateState {n : Nat} (g : Graph) (s : List Int) (i : Nat)
    (rng : Rng) (hs : ValidState n s) :
    ValidState n (UpdateState g s i rng).2.1 := by
  unfold UpdateState
  dsimp only
  split
  · exact validState_set (Or.inl rfl) hs
  · exact validState_set (Or.inr rfl) hs

lemma validState_runUpdates {n : Nat} (idxs : List Nat) :
    ∀ (g : Graph) (s : List Int) (rng : Rng), ValidState n s →
      ValidState n (runUpdates idxs g s rng).2.1 := by
  induction idxs with
  | nil => intro g s rng hs; exact hs
  | cons i t ih =>
    intro g s rng hs
    have : runUpdates (i :: t) g s rng =
        runUpdates t (UpdateState g s i rng).1 (UpdateState g s i rng).2.1
          (UpdateState g s i rng).2.2 := rfl
    rw [this]
    exact ih _ _ _ (validState_updateState g s i rng hs)

/-- C2: the initial state has length `N` with every entry `±1`, and this
invariant is preserved by every `UpdateState` call and hence by every pass
of the sampling loop. -/
theorem isingState_invariant (n : Nat) :
    (∀ rng : Rng, ValidState n (GenerateIsingState n rng).1) ∧
    (∀ (g : Graph) (s : List Int) (i : Nat) (rng : Rng), i < n →
      ValidState n s → ValidState n (UpdateState g s i rng).2.1) ∧
    (∀ (idxs : List Nat) (g : Graph) (s : List Int) (rng : Rng),
      (∀ i ∈ idxs, i < n) → ValidState n s →
      ValidState n (runUpdates idxs g s rng).2.1) := by
  refine ⟨?_, ?_, ?_⟩
  · intro rng
    rw [generateIsingState_eq]
    constructor
    · simp
    · intro x hx
      rw [List.mem_map] at hx
      obtain ⟨i, _, hi⟩ := hx
      by_cases h : rng i % 2 = 0
      · left; rw [← hi]; simp [h]
      · right; rw [← hi]; simp [h]
  · intro g s i rng _ hs
    exact validState_updateState g s i rng hs
  · intro idxs g s rng _ hs
    exact validState_runUpdates idxs g s rng hs

/-- Concrete instance of `isingState_invariant`. -/
theorem isingState_invariant_witness :
    ValidState 2 (GenerateIsingState 2 (fun _ => 0)).1 ∧
    ValidState 2 (UpdateState (initVertices 2) [1, 1] 0 (fun _ => 0)).2.1 ∧
    ValidState 2 (runUpdates [0, 1] (initVertices 2) [1, -1] (fun _ => 0)).2.1 :=
  ⟨(isingState_invariant 2).1 _,
   (isingState_invariant 2).2.1 _ _ 0 _ (by decide) (by decide),
   (isingState_invariant 2).2.2 [0, 1] _ _ _ (by decide) (by decide)⟩

/-! ### C7: frame property of `UpdateState` -/

/-- C7: when `index` is an existing key of the graph, `UpdateState` leaves
the graph completely unchanged and changes no state entry other than the
one at `index`. -/
theorem updateState_frame (g : Graph) (state : List Int) (index : Nat)
    (rng : Rng) (hkey : (g index).isSome) :
    (UpdateState g state index rng).1 = g ∧
    (UpdateState g state index rng).2.1.length = state.length ∧
    ∀ j, j ≠ index →
      (UpdateState g state index rng).2.1.getD j 0 = state.getD j 0 := by
  obtain ⟨l, hl⟩ := Option.isSome_iff_exists.mp hkey
  unfold UpdateState gindex
  rw [hl]
  dsimp only
  refine ⟨rfl, ?_, ?_⟩
  · split <;> simp
  · intro j hj
    rw [List.getD_eq_getElem?_getD, List.getD_eq_getElem?_getD]
    split <;> rw [List.getElem?_set_ne (Ne.symm hj)]

/-- Concrete instance of `updateState_frame`. -/
theorem updateState_frame_witness :
    (UpdateState (initVertices 1) [1, -1] 0 (fun _ => 0)).1 = initVertices 1 ∧
    (UpdateState (initVertices 1) [1, -1] 0 (fun _ => 0)).2.1.length =
      ([1, -1] : List Int).length ∧
    ∀ j, j ≠ 0 →
      (UpdateState (initVertices 1) [1, -1] 0 (fun _ => 0)).2.1.getD j 0 =
        ([1, -1] : List Int).getD j 0 :=
  updateState_frame (initVertices 1) [1, -1] 0 (fun _ => 0) (by decide)

/-! ### C9: command-line independence -/

/-- C9: `main` never reads its command-line arguments, so two runs with the
same random stream and different argument vectors produce identical graphs,
states and output. -/
theorem mainRun_args_independent (args args' : List String) (rng : Rng) :
    mainRun args rng = mainRun args' rng := rfl

/-! ### C1: the logistic update rule -/

lemma foldl_add_eq_sum (f : Nat → Int) (l : List Nat) :
    ∀ a : Int, l.foldl (fun s i => s + f i) a = a + (l.map f).sum := by
  induction l with
  | nil => intro a; simp
  | cons x t ih =>
    intro a
    simp only [List.foldl_cons, List.map_cons, List.sum_cons]
    rw [ih]
    ring

lemma foldl_sub_eq_neg_sum (f : Nat → Int) (l : List Nat) :
    ∀ a : Int, l.foldl (fun s i => s + f i * (-1)) a = a - (l.map f).sum := by
  induction l with
  | nil => intro a; simp
  | cons x t ih =>
    intro a
    simp only [List.foldl_cons, List.map_cons, List.sum_cons]
    rw [ih]
    ring

/-- C1: for an in-range vertex whose neighbor list is present, the update
draws `u` uniformly in `[0,1]`, computes the logistic probability
`exp(BETA*S) / (exp(BETA*S) + exp(-BETA*S))` from the neighbor-spin sum `S`,
and sets the spin to `+1` exactly when `u ≤ prob_1`, to `-1` otherwise. -/
theorem updateState_logistic (g : Graph) (state : List Int) (index : Nat)
    (rng : Rng) (hkey : (g index).isSome) (hidx : index < state.length)
    (hrand : rng 0 ≤ RAND_MAX) :
    let S : Int := ((neighbors g index).map (fun k => state.getD k 0)).sum
    let u : ℝ := (rng 0 : ℝ) / (RAND_MAX : ℝ)
    let prob_1 : ℝ := Real.exp (BETA * (S : ℝ)) /
      (Real.exp (BETA * (S : ℝ)) + Real.exp (-(BETA * (S : ℝ))))
    0 ≤ u ∧ u ≤ 1 ∧
    (UpdateState g state index rng).2.1 =
      state.set index (if u ≤ prob_1 then 1 else -1) ∧
    ((UpdateState g state index rng).2.1.getD index 0 = 1 ↔ u ≤ prob_1) ∧
    ((UpdateState g state index rng).2.1.getD index 0 = -1 ↔ ¬ u ≤ prob_1) := by
  intro S u prob_1
  obtain ⟨l, hl⟩ := Option.isSome_iff_exists.mp hkey
  have hnb : neighbors g index = l := by unfold neighbors; rw [hl]; rfl
  have hu0 : 0 ≤ u := div_nonneg (Nat.cast_nonneg _) (Nat.cast_nonneg _)
  have hu1 : u ≤ 1 := by
    rw [div_le_one (by norm_num [RAND_MAX])]
    exact_mod_cast hrand
  have key : (UpdateState g state index rng).2.1 =
      state.set index (if u ≤ prob_1 then 1 else -1) := by
    unfold UpdateState gindex
    rw [hl]
    dsimp only
    rw [foldl_add_eq_sum (fun k => state.getD k 0) l,
      foldl_sub_eq_neg_sum (fun k => state.getD k 0) l]
    simp only [zero_add, zero_sub, Int.cast_neg, mul_neg]
    rw [← hnb]
    by_cases hc : u ≤ prob_1
    · rw [if_pos hc, if_pos hc]
    · rw [if_neg hc, if_neg hc]
  have hget : ∀ v : Int, (state.set index v).getD index 0 = v := by
    intro v
    rw [List.getD_eq_getElem?_getD, List.getElem?_set_self hidx]
    rfl
  refine ⟨hu0, hu1, key, ?_, ?_⟩
  · rw [key]
    by_cases hc : u ≤ prob_1
    · rw [if_pos hc, hget]; norm_num [hc]
    · rw [if_neg hc, hget]; norm_num [hc]
  · rw [key]
    by_cases hc : u ≤ prob_1
    · rw [if_pos hc, hget]; norm_num [hc]
    · rw [if_neg hc, hget]; norm_num [hc]

/-- Concrete instance of `updateState_logistic` (isolated vertex, draw 0). -/
theorem updateState_logistic_witness :
    let g : Graph := initVertices 1
    let state : List Int := [1]
    let rng : Rng := fun _ => 0
    let S : Int := ((neighbors g 0).map (fun k => state.getD k 0)).sum
    let u : ℝ := (rng 0 : ℝ) / (RAND_MAX : ℝ)
    let prob_1 : ℝ := Real.exp (BETA * (S : ℝ)) /
      (Real.exp (BETA * (S : ℝ)) + Real.exp (-(BETA * (S : ℝ))))
    0 ≤ u ∧ u ≤ 1 ∧
    (UpdateState g state 0 rng).2.1 =
      state.set 0 (if u ≤ prob_1 then 1 else -1) ∧
    ((UpdateState g state 0 rng).2.1.getD 0 0 = 1 ↔ u ≤ prob_1) ∧
    ((UpdateState g state 0 rng).2.1.getD 0 0 = -1 ↔ ¬ u ≤ prob_1) :=
  updateState_logistic (initVertices 1) [1] 0 (fun _ => 0) (by decide)
    (by decide) (by decide)

/-! ### C3: the hogwild partition covers every vertex exactly once -/

lemma flatten_ranges (npt : Nat) :
    ∀ k, ((List.range k).map (fun t => List.range' (npt * t) npt)).flatten =
      List.range' 0 (npt * k) := by
  intro k
  induction k with
  | zero => simp
  | succ m ih =>
    rw [List.range_succ, List.map_append, List.flatten_append, ih]
    have h := List.range'_append 0 (npt * m) npt 1
    simp only [one_mul, zero_add] at h
    simp only [List.map_cons, List.map_nil, List.flatten_cons, List.flatten_nil,
      List.append_nil]
    rw [h]
    congr 1
    ring

lemma partition_flatten (n T : Nat) (hT : 1 ≤ T) :
    ((PartitionDatapointsForHogwild n T).map (fun tp => tp.flatten)).flatten =
      List.range n := by
  obtain ⟨T', rfl⟩ : ∃ T', T = T' + 1 := ⟨T - 1, by omega⟩
  unfold PartitionDatapointsForHogwild
  rw [List.map_map]
  have hbody : ∀ t ∈ List.range (T' + 1),
      ((fun tp : List (List Nat) => tp.flatten) ∘ fun thread =>
        [List.range' ((n / (T' + 1)) * thread)
          ((if thread = T' + 1 - 1 then n
            else (n / (T' + 1)) * (thread + 1)) - (n / (T' + 1)) * thread)]) t =
      List.range' ((n / (T' + 1)) * t)
        ((if t = T' then n else (n / (T' + 1)) * (t + 1)) -
          (n / (T' + 1)) * t) := by
    intro t _
    simp
  rw [List.map_congr_left hbody, List.range_succ, List.map_append,
    List.flatten_append]
  have hfirst : (List.range T').map (fun t =>
      List.range' ((n / (T' + 1)) * t)
        ((if t = T' then n else (n / (T' + 1)) * (t + 1)) -
          (n / (T' + 1)) * t)) =
    (List.range T').map (fun t => List.range' ((n / (T' + 1)) * t) (n / (T' + 1))) := by
    apply List.map_congr_left
    intro t ht
    rw [List.mem_range] at ht
    rw [if_neg (by omega)]
    have h1 : (n / (T' + 1)) * (t + 1) = (n / (T' + 1)) * t + n / (T' + 1) := by
      ring
    rw [h1, Nat.add_sub_cancel_left]
  rw [hfirst, flatten_ranges]
  simp only [List.map_cons, List.map_nil, List.flatten_cons, List.flatten_nil,
    List.append_nil, Nat.add_sub_cancel, eq_self_iff_true, if_true]
  have hle : (n / (T' + 1)) * T' ≤ n := by
    calc (n / (T' + 1)) * T' ≤ (n / (T' + 1)) * (T' + 1) :=
          Nat.mul_le_mul_left _ (by omega)
    _ ≤ n := Nat.div_mul_le_self n (T' + 1)
  have h := List.range'_append 0 ((n / (T' + 1)) * T') (n - (n / (T' + 1)) * T') 1
  simp only [one_mul, zero_add] at h
  rw [h, List.range_eq_range']
  congr 1
  omega

/-- C3: for every `n ≥ 1` and `nThreads ≥ 1` the partition gives each
thread exactly one batch, every vertex below `n` appears in the list of
exactly one thread, no other index appears, and one outer iteration
performs exactly `n` updates. -/
theorem partition_covers (n T : Nat) (hn : 1 ≤ n) (hT : 1 ≤ T) :
    (PartitionDatapointsForHogwild n T).length = T ∧
    (∀ tp ∈ PartitionDatapointsForHogwild n T, tp.length = 1) ∧
    (∀ v, v < n →
      ((PartitionDatapointsForHogwild n T).map
        (fun tp => tp.flatten.count v)).sum = 1) ∧
    (∀ v, n ≤ v →
      ((PartitionDatapointsForHogwild n T).map
        (fun tp => tp.flatten.count v)).sum = 0) ∧
    ((PartitionDatapointsForHogwild n T).map
      (fun tp => tp.flatten.length)).sum = n := by
  have hcount : ∀ v : Nat,
      ((PartitionDatapointsForHogwild n T).map
        (fun tp => tp.flatten.count v)).sum = (List.range n).count v := by
    intro v
    rw [← partition_flatten n T hT, List.count_flatten, List.map_map]
    rfl
  refine ⟨?_, ?_, ?_, ?_, ?_⟩
  · unfold PartitionDatapointsForHogwild; simp
  · intro tp htp
    unfold PartitionDatapointsForHogwild at htp
    rw [List.mem_map] at htp
    obtain ⟨t, _, ht⟩ := htp
    rw [← ht]
    rfl
  · intro v hv
    rw [hcount]
    exact List.count_eq_one_of_mem (List.nodup_range n) (List.mem_range.mpr hv)
  · intro v hv
    rw [hcount]
    exact List.count_eq_zero_of_not_mem (by rw [List.mem_range]; omega)
  · have := congrArg List.length (partition_flatten n T hT)
    rw [List.length_flatten, List.length_range, List.map_map] at this
    exact this

/-- Concrete instance of `partition_covers`. -/
theorem partition_covers_witness :
    (PartitionDatapointsForHogwild 5 2).length = 2 ∧
    (∀ tp ∈ PartitionDatapointsForHogwild 5 2, tp.length = 1) ∧
    (∀ v, v < 5 →
      ((PartitionDatapointsForHogwild 5 2).map
        (fun tp => tp.flatten.count v)).sum = 1) ∧
    (∀ v, 5 ≤ v →
      ((PartitionDatapointsForHogwild 5 2).map
        (fun tp => tp.flatten.count v)).sum = 0) ∧
    ((PartitionDatapointsForHogwild 5 2).map
      (fun tp => tp.flatten.length)).sum = 5 :=
  partition_covers 5 2 (by decide) (by decide)

/-! ### C6: the print functions terminate the process on malformed state -/

lemma spinChar_ok (acc : String) (x : Int) (h : x = 1 ∨ x = -1) :
    spinChar acc x = .ok (acc ++ if x = 1 then "1" else "0") := by
  rcases h with h | h <;> subst h <;> simp [spinChar]

lemma spinChar_error (acc : String) (x : Int) (h : ¬(x = 1 ∨ x = -1)) :
    spinChar acc x = .error "Something went wrong..." := by
  push_neg at h
  simp [spinChar, h.1, h.2]

lemma foldlM_spinChar_ok (s : List Int) :
    ∀ acc, (∃ out, s.foldlM spinChar acc = .ok out) ↔
      ∀ x ∈ s, x = 1 ∨ x = -1 := by
  induction s with
  | nil => intro acc; simp [List.foldlM_nil]; exact ⟨acc, rfl⟩
  | cons x t ih =>
    intro acc
    rw [List.foldlM_cons]
    by_cases hx : x = 1 ∨ x = -1
    · rw [spinChar_ok acc x hx]
      have hbind : (Except.ok (acc ++ if x = 1 then "1" else "0") >>=
          fun b => t.foldlM spinChar b) = t.foldlM spinChar
            (acc ++ if x = 1 then "1" else "0") := rfl
      rw [hbind, ih]
      constructor
      · intro h y hy
        rcases List.mem_cons.mp hy with h' | h'
        · subst h'; exact hx
        · exact h y h'
      · intro h y hy
        exact h y (List.mem_cons_of_mem x hy)
    · rw [spinChar_error acc x hx]
      constructor
      · intro ⟨out, hout⟩; cases hout
      · intro h; exact absurd (h x (List.mem_cons_self x t)) hx

lemma foldlM_spinChar_error (s : List Int) :
    ∀ acc, ¬(∀ x ∈ s, x = 1 ∨ x = -1) →
      s.foldlM spinChar acc = .error "Something went wrong..." := by
  induction s with
  | nil => intro acc h; exact absurd (by simp) h
  | cons x t ih =>
    intro acc h
    rw [List.foldlM_cons]
    by_cases hx : x = 1 ∨ x = -1
    · rw [spinChar_ok acc x hx]
      have hbind : (Except.ok (acc ++ if x = 1 then "1" else "0") >>=
          fun b => t.foldlM spinChar b) = t.foldlM spinChar
            (acc ++ if x = 1 then "1" else "0") := rfl
      rw [hbind]
      apply ih
      intro ht
      apply h
      intro y hy
      rcases List.mem_cons.mp hy with h' | h'
      · subst h'; exact hx
      · exact ht y h'
    · rw [spinChar_error acc x hx]
      rfl

/-- The body of one printed row of `Print2DState`. -/
def rowStepM (state : List Int) (length : Nat) (acc : String) (i : Nat) :
    Except String String :=
  ((List.range length).foldlM
    (fun acc2 j => spinChar acc2 (state.getD (i * length + j) 0)) acc).map
    (fun s => s ++ "\n")

lemma print2D_eq (n delta : Nat) (s : List Int) (h4 : delta = 4)
    (hsq : Nat.sqrt n * Nat.sqrt n = n) :
    Print2DState n delta s =
      (List.range (Nat.sqrt n)).foldlM (rowStepM s (Nat.sqrt n)) "" := by
  unfold Print2DState rowStepM
  rw [if_neg (by omega), if_neg (by omega)]

lemma spinRow_map (f : Nat → Int) (k : Nat) (acc : String) :
    (List.range k).foldlM (fun a j => spinChar a (f j)) acc =
      ((List.range k).map f).foldlM spinChar acc := by
  rw [List.foldlM_map]

lemma spinRow_ok (f : Nat → Int) (k : Nat) :
    ∀ acc, (∃ out, (List.range k).foldlM (fun a j => spinChar a (f j)) acc =
        .ok out) ↔ ∀ j, j < k → f j = 1 ∨ f j = -1 := by
  intro acc
  rw [spinRow_map, foldlM_spinChar_ok]
  constructor
  · intro h j hj
    exact h (f j) (List.mem_map_of_mem f (List.mem_range.mpr hj))
  · intro h x hx
    obtain ⟨j, hj, rfl⟩ := List.mem_map.mp hx
    exact h j (List.mem_range.mp hj)

lemma spinRow_error (f : Nat → Int) (k : Nat) (acc : String)
    (h : ¬ ∀ j, j < k → f j = 1 ∨ f j = -1) :
    (List.range k).foldlM (fun a j => spinChar a (f j)) acc =
      .error "Something went wrong..." := by
  rw [spinRow_map]
  apply foldlM_spinChar_error
  intro hall
  apply h
  intro j hj
  exact hall (f j) (List.mem_map_of_mem f (List.mem_range.mpr hj))

lemma rows_ok (s : List Int) (L : Nat) (k : Nat) :
    ∀ acc, (∃ out, (List.range k).foldlM (rowStepM s L) acc = .ok out) ↔
      ∀ i, i < k → ∀ j, j < L → s.getD (i * L + j) 0 = 1 ∨
        s.getD (i * L + j) 0 = -1 := by
  induction k with
  | zero =>
    intro acc
    simp only [List.range_zero, List.foldlM_nil]
    constructor
    · intro _ i hi; omega
    · intro _; exact ⟨acc, rfl⟩
  | succ m ih =>
    intro acc
    rw [List.range_succ, List.foldlM_append]
    cases hpre : (List.range m).foldlM (rowStepM s L) acc with
    | error e =>
      have hnot : ¬ ∀ i, i < m → ∀ j, j < L → s.getD (i * L + j) 0 = 1 ∨
          s.getD (i * L + j) 0 = -1 := by
        rw [← ih acc]
        rintro ⟨out, hout⟩
        rw [hpre] at hout
        cases hout
      constructor
      · rintro ⟨out, hout⟩
        change (Except.error e >>= _) = _ at hout
        cases hout
      · intro h
        exact absurd (fun i hi => h i (by omega)) hnot
    | ok b =>
      have hall : ∀ i, i < m → ∀ j, j < L → s.getD (i * L + j) 0 = 1 ∨
          s.getD (i * L + j) 0 = -1 := by
        rw [← ih acc]
        exact ⟨b, hpre⟩
      have hbind : ∀ (r : Except String String),
          (Except.ok b >>= fun b' => List.foldlM (rowStepM s L) b' [m]) =
            List.foldlM (rowStepM s L) b [m] := fun _ => rfl
      rw [hbind (Except.ok b)]
      have hone : List.foldlM (rowStepM s L) b [m] =
          (rowStepM s L b m) >>= fun b' => pure b' := rfl
      rw [hone]
      unfold rowStepM
      by_cases hrow : ∀ j, j < L → s.getD (m * L + j) 0 = 1 ∨
          s.getD (m * L + j) 0 = -1
      · obtain ⟨out, hout⟩ := (spinRow_ok
          (fun j => s.getD (m * L + j) 0) L b).mpr hrow
        rw [hout]
        constructor
        · intro _ i hi j hj
          by_cases him : i < m
          · exact hall i him j hj
          · have : i = m := by omega
            subst this
            exact hrow j hj
        · intro _
          exact ⟨out ++ "\n", rfl⟩
      · rw [spinRow_error (fun j => s.getD (m * L + j) 0) L b hrow]
        constructor
        · rintro ⟨out2, hout2⟩
          cases hout2
        · intro h
          exact absurd (fun j hj => h m (by omega) j hj) hrow

lemma rows_error (s : List Int) (L : Nat) (k : Nat) :
    ∀ acc, ¬(∀ i, i < k → ∀ j, j < L → s.getD (i * L + j) 0 = 1 ∨
        s.getD (i * L + j) 0 = -1) →
      (List.range k).foldlM (rowStepM s L) acc =
        .error "Something went wrong..." := by
  induction k with
  | zero => intro acc h; exact absurd (fun i hi => by omega) h
  | succ m ih =>
    intro acc h
    rw [List.range_succ, List.foldlM_append]
    by_cases hpreall : ∀ i, i < m → ∀ j, j < L → s.getD (i * L + j) 0 = 1 ∨
        s.getD (i * L + j) 0 = -1
    · obtain ⟨b, hb⟩ := (rows_ok s L m acc).mpr hpreall
      rw [hb]
      have hbind : (Except.ok b >>= fun b' => List.foldlM (rowStepM s L) b' [m]) =
          List.foldlM (rowStepM s L) b [m] := rfl
      rw [hbind]
      have hone : List.foldlM (rowStepM s L) b [m] =
          (rowStepM s L b m) >>= fun b' => pure b' := rfl
      rw [hone]
      unfold rowStepM
      have hrow : ¬ ∀ j, j < L → s.getD (m * L + j) 0 = 1 ∨
          s.getD (m * L + j) 0 = -1 := by
        intro hrow
        apply h
        intro i hi j hj
        by_cases him : i < m
        · exact hpreall i him j hj
        · have : i = m := by omega
          subst this
          exact hrow j hj
      rw [spinRow_error (fun j => s.getD (m * L + j) 0) L b hrow]
      rfl
    · rw [ih acc hpreall]
      rfl

lemma forall_grid_iff_mem (P : Int → Prop) (s : List Int) (L : Nat)
    (hlen : s.length = L * L) :
    (∀ i, i < L → ∀ j, j < L → P (s.getD (i * L + j) 0)) ↔ ∀ x ∈ s, P x := by
  constructor
  · intro h x hx
    obtain ⟨pos, hpos, rfl⟩ := List.mem_iff_getElem.mp hx
    have hL : 0 < L := by
      rcases Nat.eq_zero_or_pos L with h0 | h0
      · subst h0; omega
      · exact h0
    have hlt : pos < L * L := by rw [hlen] at hpos; exact hpos
    have hi : pos / L < L := (Nat.div_lt_iff_lt_mul hL).mpr hlt
    have hj : pos % L < L := Nat.mod_lt _ hL
    have hdecomp : (pos / L) * L + pos % L = pos := by
      rw [Nat.mul_comm]
      exact Nat.div_add_mod pos L
    have := h (pos / L) hi (pos % L) hj
    rw [hdecomp] at this
    rwa [List.getD_eq_getElem s 0 (by omega)] at this
  · intro h i hi j hj
    have hlt : i * L + j < L * L := by
      have h1 : i * L + j < (i + 1) * L := by
        have : (i + 1) * L = i * L + L := by ring
        omega
      have h2 : (i + 1) * L ≤ L * L := Nat.mul_le_mul_right L (by omega)
      omega
    rw [List.getD_eq_getElem s 0 (by omega)]
    exact h _ (List.getElem_mem _)

/-- C6: `PrintState` returns normally exactly when every entry is `±1` and
otherwise terminates with the printed message; `Print2DState` additionally
terminates with a printed message when `DELTA` is not 4 or `N` is not a
perfect square. -/
theorem print_state_termination :
    (∀ s : List Int,
      (∃ out, PrintState s = .ok out) ↔ ∀ x ∈ s, x = 1 ∨ x = -1) ∧
    (∀ s : List Int, ¬(∀ x ∈ s, x = 1 ∨ x = -1) →
      PrintState s = .error "Something went wrong...") ∧
    (∀ (n delta : Nat) (s : List Int), s.length = n →
      (((∃ out, Print2DState n delta s = .ok out) ↔
        (delta = 4 ∧ Nat.sqrt n * Nat.sqrt n = n ∧
          ∀ x ∈ s, x = 1 ∨ x = -1)) ∧
       ((delta = 4 ∧ Nat.sqrt n * Nat.sqrt n = n ∧
          ¬(∀ x ∈ s, x = 1 ∨ x = -1)) →
        Print2DState n delta s = .error "Something went wrong...") ∧
       (¬(delta = 4 ∧ Nat.sqrt n * Nat.sqrt n = n) →
        ∃ msg, Print2DState n delta s = .error msg))) := by
  refine ⟨?_, ?_, ?_⟩
  · intro s
    exact foldlM_spinChar_ok s ""
  · intro s h
    exact foldlM_spinChar_error s "" h
  · intro n delta s hlen
    by_cases h4 : delta = 4
    · by_cases hsq : Nat.sqrt n * Nat.sqrt n = n
      · have hlen2 : s.length = Nat.sqrt n * Nat.sqrt n := by omega
        have hmem := forall_grid_iff_mem (fun x => x = 1 ∨ x = -1) s
          (Nat.sqrt n) hlen2
        refine ⟨?_, ?_, ?_⟩
        · rw [print2D_eq n delta s h4 hsq, rows_ok]
          constructor
          · intro h
            exact ⟨h4, hsq, hmem.mp h⟩
          · intro ⟨_, _, h⟩
            exact hmem.mpr h
        · intro ⟨_, _, hbad⟩
          rw [print2D_eq n delta s h4 hsq]
          exact rows_error s (Nat.sqrt n) (Nat.sqrt n) ""
            (fun hall => hbad (hmem.mp hall))
        · intro h
          exact absurd ⟨h4, hsq⟩ h
      · refine ⟨?_, ?_, ?_⟩
        · constructor
          · intro ⟨out, hout⟩
            unfold Print2DState at hout
            rw [if_neg (by omega), if_pos (by omega)] at hout
            cases hout
          · intro ⟨_, hsq', _⟩
            exact absurd hsq' hsq
        · intro ⟨_, hsq', _⟩
          exact absurd hsq' hsq
        · intro _
          refine ⟨"Error: For 2D Ising model N must be a square.", ?_⟩
          unfold Print2DState
          rw [if_neg (by omega), if_pos (by omega)]
    · refine ⟨?_, ?_, ?_⟩
      · constructor
        · intro ⟨out, hout⟩
          unfold Print2DState at hout
          rw [if_pos (by omega)] at hout
          cases hout
        · intro ⟨h4', _⟩
          exact absurd h4' h4
      · intro ⟨h4', _⟩
        exact absurd h4' h4
      · intro _
        refine ⟨"Error: For 2D Ising model delta must be 4.", ?_⟩
        unfold Print2DState
        rw [if_pos (by omega)]

/-- Concrete instance of `print_state_termination`. -/
theorem print_state_termination_witness :
    ((∃ out, PrintState [1, -1] = .ok out) ↔
      ∀ x ∈ ([1, -1] : List Int), x = 1 ∨ x = -1) ∧
    (PrintState [2] = .error "Something went wrong...") ∧
    ((∃ out, Print2DState 1 4 [1] = .ok out) ↔
      (4 = 4 ∧ Nat.sqrt 1 * Nat.sqrt 1 = 1 ∧
        ∀ x ∈ ([1] : List Int), x = 1 ∨ x = -1)) :=
  ⟨print_state_termination.1 [1, -1],
   print_state_termination.2.1 [2] (by decide),
   (print_state_termination.2.2 1 4 [1] (by decide)).1⟩

/-! ### C8: the edge-search loop terminates within the retry bound -/

lemma findEdge_spec_aux (n delta maxTries : Nat) (g : Graph) :
    ∀ (fuel v1 v2 nTries : Nat) (rng : Rng), maxTries - nTries ≤ fuel →
      (findEdgeSteps n delta maxTries g v1 v2 nTries rng ≤
        maxTries - nTries + 1) ∧
      ((∃ a b rng', findEdge n delta maxTries g v1 v2 nTries rng =
          .found a b rng' ∧ ¬ edgeBlocked g delta a b) ∨
       (∃ rng', findEdge n delta maxTries g v1 v2 nTries rng =
          .giveUp rng')) := by
  intro fuel
  induction fuel with
  | zero =>
    intro v1 v2 nTries rng hfuel
    have hstop : maxTries ≤ nTries := by omega
    unfold findEdgeSteps findEdge
    by_cases hb : edgeBlocked g delta v1 v2
    · rw [if_pos hb, if_pos hb]
      constructor
      · rw [dif_pos hstop]
        omega
      · right
        rw [dif_pos hstop]
        exact ⟨_, rfl⟩
    · rw [if_neg hb, if_neg hb]
      constructor
      · omega
      · left
        exact ⟨v1, v2, rng, rfl, hb⟩
  | succ fuel ih =>
    intro v1 v2 nTries rng hfuel
    unfold findEdgeSteps findEdge
    by_cases hb : edgeBlocked g delta v1 v2
    · rw [if_pos hb, if_pos hb]
      by_cases hstop : maxTries ≤ nTries
      · constructor
        · rw [dif_pos hstop]
          omega
        · right
          rw [dif_pos hstop]
          exact ⟨_, rfl⟩
      · rw [dif_neg hstop, dif_neg hstop]
        have := ih (rng 0 % n) (rng 1 % n) (nTries + 1) (rng.shift 2)
          (by omega)
        constructor
        · have h1 := this.1
          omega
        · exact this.2
    · rw [if_neg hb, if_neg hb]
      constructor
      · omega
      · left
        exact ⟨v1, v2, rng, rfl, hb⟩

/-- C8: the inner search loop of `GenerateRandomIsingModelGraph` executes
its body at most `maxTries - nTries + 1` times, and always ends by either
finding a valid (unblocked) edge or giving up. -/
theorem findEdge_terminates (n delta maxTries : Nat) (g : Graph)
    (v1 v2 nTries : Nat) (rng : Rng) :
    (findEdgeSteps n delta maxTries g v1 v2 nTries rng ≤
      maxTries - nTries + 1) ∧
    ((∃ a b rng', findEdge n delta maxTries g v1 v2 nTries rng =
        .found a b rng' ∧ ¬ edgeBlocked g delta a b) ∨
     (∃ rng', findEdge n delta maxTries g v1 v2 nTries rng =
        .giveUp rng')) :=
  findEdge_spec_aux n delta maxTries g (maxTries - nTries) v1 v2 nTries rng
    le_rfl

/-! ### C4: invariants of the random graph generator -/

lemma findEdge_found_range (n delta maxTries : Nat) (g : Graph)
    (hn : 0 < n) :
    ∀ (fuel v1 v2 nTries : Nat) (rng : Rng) (a b : Nat) (rng' : Rng),
      maxTries - nTries ≤ fuel → v1 < n → v2 < n →
      findEdge n delta maxTries g v1 v2 nTries rng = .found a b rng' →
      a < n ∧ b < n ∧ ¬ edgeBlocked g delta a b := by
  intro fuel
  induction fuel with
  | zero =>
    intro v1 v2 nTries rng a b rng' hfuel h1 h2 hfind
    have hstop : maxTries ≤ nTries := by omega
    unfold findEdge at hfind
    by_cases hb : edgeBlocked g delta v1 v2
    · rw [if_pos hb, dif_pos hstop] at hfind
      cases hfind
    · rw [if_neg hb] at hfind
      cases hfind
      exact ⟨h1, h2, hb⟩
  | succ fuel ih =>
    intro v1 v2 nTries rng a b rng' hfuel h1 h2 hfind
    unfold findEdge at hfind
    by_cases hb : edgeBlocked g delta v1 v2
    · rw [if_pos hb] at hfind
      by_cases hstop : maxTries ≤ nTries
      · rw [dif_pos hstop] at hfind
        cases hfind
      · rw [dif_neg hstop] at hfind
        exact ih (rng 0 % n) (rng 1 % n) (nTries + 1) (rng.shift 2) a b rng'
          (by omega) (Nat.mod_lt _ hn) (Nat.mod_lt _ hn) hfind
    · rw [if_neg hb] at hfind
      cases hfind
      exact ⟨h1, h2, hb⟩

/-- The three invariants maintained by the random generator. -/
def RandGraphInv (n delta : Nat) (g : Graph) : Prop :=
  (∀ v, v < n → (g v).isSome) ∧
  (∀ v, (neighbors g v).count v = 0) ∧
  (∀ v, degree g v ≤ delta)

lemma randGraphInv_addEdgeBoth {n delta : Nat} {g : Graph} {a b : Nat}
    (hInv : RandGraphInv n delta g) (hblocked : ¬ edgeBlocked g delta a b) :
    RandGraphInv n delta (addEdgeBoth g a b) := by
  unfold edgeBlocked at hblocked
  push_neg at hblocked
  obtain ⟨hab, hda, hdb⟩ := hblocked
  obtain ⟨hkeys, hself, hdeg⟩ := hInv
  refine ⟨?_, ?_, ?_⟩
  · intro v hv
    exact isSome_addEdgeBoth (hkeys v hv) a b
  · intro v
    rw [count_neighbors_addEdgeBoth]
    rw [if_neg (by rintro ⟨h1, h2⟩; exact hab (h1.symm.trans h2)),
      if_neg (by rintro ⟨h1, h2⟩; exact hab (h2.symm.trans h1))]
    simp [hself v]
  · intro v
    rw [degree_addEdgeBoth g a b v hab]
    have hda' : degree g a < delta := by omega
    have hdb' : degree g b < delta := by omega
    by_cases hva : v = a <;> by_cases hvb : v = b
    · exact absurd (hva.symm.trans hvb) hab
    · subst hva
      rw [if_pos rfl, if_neg hvb]
      omega
    · subst hvb
      rw [if_neg hva, if_pos rfl]
      omega
    · rw [if_neg hva, if_neg hvb]
      have := hdeg v
      omega

lemma randAux_inv (n delta maxTries : Nat) (hn : 0 < n) :
    ∀ (m : Nat) (g : Graph) (rng : Rng), RandGraphInv n delta g →
      RandGraphInv n delta ((generateRandomAux n delta maxTries m g rng).1) := by
  intro m
  induction m with
  | zero => intro g rng hInv; exact hInv
  | succ m ih =>
    intro g rng hInv
    unfold generateRandomAux
    cases hfind : findEdge n delta maxTries g (rng 0 % n) (rng 1 % n) 0
      (rng.shift 2) with
    | found a b rng' =>
      dsimp only
      rw [hfind]
      have hprops := findEdge_found_range n delta maxTries g hn maxTries
        (rng 0 % n) (rng 1 % n) 0 (rng.shift 2) a b rng' (by omega)
        (Nat.mod_lt _ hn) (Nat.mod_lt _ hn) hfind
      exact ih _ rng' (randGraphInv_addEdgeBoth hInv hprops.2.2)
    | giveUp rng' =>
      dsimp only
      rw [hfind]
      exact hInv

lemma randGraphInv_initVertices (n delta : Nat) :
    RandGraphInv n delta (initVertices n) := by
  refine ⟨?_, ?_, ?_⟩
  · intro v hv
    rw [initVertices_apply, if_pos hv]
    rfl
  · intro v
    rw [neighbors_initVertices]
    rfl
  · intro v
    unfold degree
    rw [neighbors_initVertices]
    simp

/-- C4: in the random graph, every vertex below `n` is a key, no neighbor
list contains its own vertex, every neighbor list has length at most
`delta`, and the degree bound is preserved by each single edge insertion. -/
theorem randomGraph_invariants (n delta maxEdges maxTries : Nat) (rng : Rng)
    (hn : 0 < n) :
    (∀ v, v < n →
      (((GenerateRandomIsingModelGraph n delta maxEdges maxTries rng).1)
        v).isSome) ∧
    (∀ v, v ∉ neighbors
      (GenerateRandomIsingModelGraph n delta maxEdges maxTries rng).1 v) ∧
    (∀ v, degree
      (GenerateRandomIsingModelGraph n delta maxEdges maxTries rng).1 v ≤
        delta) ∧
    (∀ (g : Graph) (a b : Nat), (∀ v, degree g v ≤ delta) →
      ¬ edgeBlocked g delta a b →
      ∀ v, degree (addEdgeBoth g a b) v ≤ delta) := by
  have hInv := randAux_inv n delta maxTries hn maxEdges (initVertices n) rng
    (randGraphInv_initVertices n delta)
  obtain ⟨hkeys, hself, hdeg⟩ := hInv
  refine ⟨hkeys, ?_, hdeg, ?_⟩
  · intro v
    rw [← List.count_eq_zero]
    exact hself v
  · intro g a b hdeg' hblocked v
    unfold edgeBlocked at hblocked
    push_neg at hblocked
    obtain ⟨hab, hda, hdb⟩ := hblocked
    rw [degree_addEdgeBoth g a b v hab]
    by_cases hva : v = a <;> by_cases hvb : v = b
    · exact absurd (hva.symm.trans hvb) hab
    · subst hva
      rw [if_pos rfl, if_neg hvb]
      omega
    · subst hvb
      rw [if_neg hva, if_pos rfl]
      omega
    · rw [if_neg hva, if_neg hvb]
      have := hdeg' v
      omega

/-- Concrete instance of `randomGraph_invariants`. -/
theorem randomGraph_invariants_witness :
    (∀ v, v < 2 →
      (((GenerateRandomIsingModelGraph 2 1 1 1 (fun _ => 0)).1) v).isSome) ∧
    (∀ v, v ∉ neighbors
      (GenerateRandomIsingModelGraph 2 1 1 1 (fun _ => 0)).1 v) ∧
    (∀ v, degree
      (GenerateRandomIsingModelGraph 2 1 1 1 (fun _ => 0)).1 v ≤ 1) ∧
    (∀ (g : Graph) (a b : Nat), (∀ v, degree g v ≤ 1) →
      ¬ edgeBlocked g 1 a b →
      ∀ v, degree (addEdgeBoth g a b) v ≤ 1) :=
  randomGraph_invariants 2 1 1 1 (fun _ => 0) (by decide)

/-! ### C10: both generators build a symmetric adjacency structure -/

lemma symmCounts_foldl {α : Type} (f : Graph → α → Graph)
    (hf : ∀ g x, SymmCounts g → SymmCounts (f g x)) :
    ∀ (l : List α) (g : Graph), SymmCounts g → SymmCounts (l.foldl f g) := by
  intro l
  induction l with
  | nil => intro g hg; exact hg
  | cons x t ih =>
    intro g hg
    rw [List.foldl_cons]
    exact ih (f g x) (hf g x hg)

lemma symmCounts_cellStep (L : Nat) (g : Graph) (i j : Nat)
    (h : SymmCounts g) : SymmCounts (cellStep L g i j) := by
  unfold cellStep
  dsimp only
  by_cases hi : i + 1 < L <;> by_cases hj : j + 1 < L <;>
    simp only [hi, hj, if_true, if_false]
  · exact symmCounts_addEdgeBoth (symmCounts_addEdgeBoth h _ _) _ _
  · exact symmCounts_addEdgeBoth h _ _
  · exact symmCounts_addEdgeBoth h _ _
  · exact h

lemma symmCounts_randAux (n delta maxTries : Nat) :
    ∀ (m : Nat) (g : Graph) (rng : Rng), SymmCounts g →
      SymmCounts ((generateRandomAux n delta maxTries m g rng).1) := by
  intro m
  induction m with
  | zero => intro g rng hg; exact hg
  | succ m ih =>
    intro g rng hg
    unfold generateRandomAux
    cases hfind : findEdge n delta maxTries g (rng 0 % n) (rng 1 % n) 0
      (rng.shift 2) with
    | found a b rng' =>
      dsimp only
      rw [hfind]
      exact ih _ rng' (symmCounts_addEdgeBoth hg a b)
    | giveUp rng' =>
      dsimp only
      rw [hfind]
      exact hg

/-- C10: in the graphs produced by both generators, `v` occurs in the
neighbor list of `u` exactly as often as `u` occurs in that of `v`,
because every edge insertion appends to the lists of both endpoints. -/
theorem graph_symmetry :
    (∀ (n delta : Nat) (g : Graph), Generate2DIsingModelGraph n delta = .ok g →
      ∀ u v, (neighbors g v).count u = (neighbors g u).count v) ∧
    (∀ (n delta maxEdges maxTries : Nat) (rng : Rng), ∀ u v,
      (neighbors (GenerateRandomIsingModelGraph n delta maxEdges maxTries
        rng).1 v).count u =
      (neighbors (GenerateRandomIsingModelGraph n delta maxEdges maxTries
        rng).1 u).count v) := by
  constructor
  · intro n delta g hok u v
    unfold Generate2DIsingModelGraph at hok
    by_cases h4 : delta ≠ 4
    · rw [if_pos h4] at hok; cases hok
    · rw [if_neg h4] at hok
      by_cases hsq : Nat.sqrt n * Nat.sqrt n ≠ n
      · rw [if_pos hsq] at hok; cases hok
      · rw [if_neg hsq] at hok
        have hg : g = (List.range (Nat.sqrt n)).foldl
            (fun g i => (List.range (Nat.sqrt n)).foldl
              (fun g j => cellStep (Nat.sqrt n) g i j) g)
            (initVertices n) := by
          cases hok
          rfl
        subst hg
        refine symmCounts_foldl _ ?_ _ _ (symmCounts_initVertices n) u v
        intro g i hg
        exact symmCounts_foldl _ (fun g j hgj => symmCounts_cellStep _ g i j hgj)
          _ g hg
  · intro n delta maxEdges maxTries rng u v
    exact symmCounts_randAux n delta maxTries maxEdges (initVertices n) rng
      (symmCounts_initVertices n) u v

/-- Concrete instance of `graph_symmetry`. -/
theorem graph_symmetry_witness :
    (neighbors (initVertices 1) 1).count 0 =
      (neighbors (initVertices 1) 0).count 1 ∧
    (neighbors (GenerateRandomIsingModelGraph 2 1 1 1 (fun _ => 0)).1 1).count 0 =
      (neighbors (GenerateRandomIsingModelGraph 2 1 1 1 (fun _ => 0)).1 0).count 1 :=
  ⟨graph_symmetry.1 1 4 (initVertices 1) rfl 0 1,
   graph_symmetry.2 2 1 1 1 (fun _ => 0) 0 1⟩

/-! ### C5: the 2D generator builds exactly the lattice -/

/-- The (directed) edges inserted while processing cell `(i, j)`:
the bottom edge, then the right edge, when they exist. -/
def cellEdges (length i j : Nat) : List (Nat × Nat) :=
  (if i + 1 < length then [(i * length + j, (i + 1) * length + j)] else []) ++
  (if j + 1 < length then [(i * length + j, i * length + j + 1)] else [])

/-- All directed edges inserted by `Generate2DIsingModelGraph`, in
insertion order. -/
def edges2D (length : Nat) : List (Nat × Nat) :=
  ((List.range length).map (fun i =>
    ((List.range length).map (fun j => cellEdges length i j)).flatten)).flatten

lemma cellStep_eq_foldl (length : Nat) (g : Graph) (i j : Nat) :
    cellStep length g i j =
      (cellEdges length i j).foldl (fun g e => addEdgeBoth g e.1 e.2) g := by
  unfold cellStep cellEdges
  by_cases hi : i + 1 < length <;> by_cases hj : j + 1 < length <;>
    simp [hi, hj]

lemma generate2D_ok (n delta : Nat) (h4 : delta = 4)
    (hsq : Nat.sqrt n * Nat.sqrt n = n) :
    Generate2DIsingModelGraph n delta =
      .ok ((edges2D (Nat.sqrt n)).foldl (fun g e => addEdgeBoth g e.1 e.2)
        (initVertices n)) := by
  unfold Generate2DIsingModelGraph edges2D
  rw [if_neg (by omega), if_neg (by omega)]
  dsimp only
  congr 1
  rw [List.foldl_flatten, List.foldl_map]
  apply List.foldl_ext
  intro g i _
  rw [List.foldl_flatten, List.foldl_map]
  apply List.foldl_ext
  intro g' j _
  exact cellStep_eq_foldl _ g' i j

lemma count_foldl_addEdge (E : List (Nat × Nat)) :
    ∀ (g : Graph) (v u : Nat),
      (neighbors (E.foldl (fun g e => addEdgeBoth g e.1 e.2) g) v).count u =
        (neighbors g v).count u + E.count (v, u) + E.count (u, v) := by
  induction E with
  | nil => intro g v u; simp
  | cons e t ih =>
    intro g v u
    rw [List.foldl_cons, ih, count_neighbors_addEdgeBoth,
      List.count_cons, List.count_cons]
    obtain ⟨a, b⟩ := e
    simp only [beq_iff_eq, Prod.mk.injEq]
    split_ifs <;> omega

lemma sum_map_range_eq_single (f : Nat → Nat) (t0 : Nat) :
    ∀ k : Nat, (∀ t, t < k → t ≠ t0 → f t = 0) →
      ((List.range k).map f).sum = if t0 < k then f t0 else 0 := by
  intro k
  induction k with
  | zero => intro _; simp
  | succ m ih =>
    intro h
    rw [List.range_succ, List.map_append, List.sum_append]
    rw [ih (fun t ht => h t (by omega))]
    simp only [List.map_cons, List.map_nil, List.sum_cons, List.sum_nil]
    by_cases h0 : t0 < m
    · rw [if_pos h0, if_pos (by omega), h m (by omega) (by omega)]
      omega
    · by_cases h1 : t0 = m
      · subst h1
        rw [if_neg h0, if_pos (by omega)]
        omega
      · rw [if_neg h0, if_neg (by omega), h m (by omega) (by omega)]
        omega

lemma sum_map_range_zero (f : Nat → Nat) (k : Nat)
    (h : ∀ t, t < k → f t = 0) : ((List.range k).map f).sum = 0 := by
  rw [sum_map_range_eq_single f k k (fun t ht _ => h t ht)]
  simp

lemma count_cellEdges (L i j x y : Nat) :
    (cellEdges L i j).count (x, y) =
      (if i + 1 < L ∧ (x, y) = (i * L + j, (i + 1) * L + j) then 1 else 0) +
      (if j + 1 < L ∧ (x, y) = (i * L + j, i * L + j + 1) then 1 else 0) := by
  unfold cellEdges
  rw [List.count_append]
  have h1 : (if i + 1 < L then [(i * L + j, (i + 1) * L + j)] else
      ([] : List (Nat × Nat))).count (x, y) =
      if i + 1 < L ∧ (x, y) = (i * L + j, (i + 1) * L + j) then 1 else 0 := by
    by_cases hi : i + 1 < L
    · rw [if_pos hi, List.count_singleton]
      by_cases he : (x, y) = (i * L + j, (i + 1) * L + j)
      · rw [if_pos (by rw [beq_iff_eq]; exact he.symm), if_pos ⟨hi, he⟩]
      · rw [if_neg (by rw [beq_iff_eq]; exact fun h => he h.symm),
          if_neg (by rintro ⟨_, h⟩; exact he h)]
    · rw [if_neg hi, List.count_nil,
        if_neg (by rintro ⟨h, _⟩; exact hi h)]
  have h2 : (if j + 1 < L then [(i * L + j, i * L + j + 1)] else
      ([] : List (Nat × Nat))).count (x, y) =
      if j + 1 < L ∧ (x, y) = (i * L + j, i * L + j + 1) then 1 else 0 := by
    by_cases hj : j + 1 < L
    · rw [if_pos hj, List.count_singleton]
      by_cases he : (x, y) = (i * L + j, i * L + j + 1)
      · rw [if_pos (by rw [beq_iff_eq]; exact he.symm), if_pos ⟨hj, he⟩]
      · rw [if_neg (by rw [beq_iff_eq]; exact fun h => he h.symm),
          if_neg (by rintro ⟨_, h⟩; exact he h)]
    · rw [if_neg hj, List.count_nil,
        if_neg (by rintro ⟨h, _⟩; exact hj h)]
  rw [h1, h2]

lemma grid_unique {L q s i j : Nat} (hs : s < L) (hj : j < L)
    (h : q * L + s = i * L + j) : q = i ∧ s = j := by
  have hq : (q * L + s) / L = q := by
    rw [Nat.mul_comm q L, Nat.mul_add_div (by omega), Nat.div_eq_of_lt hs]
    omega
  have hi : (i * L + j) / L = i := by
    rw [Nat.mul_comm i L, Nat.mul_add_div (by omega), Nat.div_eq_of_lt hj]
    omega
  have : q = i := by rw [← hq, h, hi]
  constructor
  · exact this
  · subst this
    omega

lemma grid_div (L i j : Nat) (hL : 0 < L) (hj : j < L) :
    (i * L + j) / L = i := by
  rw [Nat.mul_comm i L, Nat.mul_add_div hL, Nat.div_eq_of_lt hj]
  omega

lemma grid_mod (L i j : Nat) (hj : j < L) : (i * L + j) % L = j := by
  rw [Nat.mul_comm i L, Nat.mul_add_mod]
  exact Nat.mod_eq_of_lt hj

lemma count_edges2D (L x y : Nat) :
    (edges2D L).count (x, y) =
      (if x / L + 1 < L ∧ y = x + L then 1 else 0) +
      (if x / L < L ∧ x % L + 1 < L ∧ y = x + 1 then 1 else 0) := by
  rcases Nat.eq_zero_or_pos L with hL | hL
  · subst hL
    simp [edges2D]
  · unfold edges2D
    rw [List.count_flatten, List.map_map]
    have hmap : List.map (List.count (x, y) ∘ fun i =>
        ((List.range L).map (fun j => cellEdges L i j)).flatten)
          (List.range L) =
      List.map (fun i =>
        ((List.range L).map (fun j => (cellEdges L i j).count (x, y))).sum)
        (List.range L) := by
      apply List.map_congr_left
      intro i _
      simp only [Function.comp_apply]
      rw [List.count_flatten, List.map_map]
      rfl
    rw [hmap]
    have hcell_zero : ∀ i j, j < L → ¬(i = x / L ∧ j = x % L) →
        (cellEdges L i j).count (x, y) = 0 := by
      intro i j hj hne
      rw [count_cellEdges]
      rw [if_neg, if_neg]
      · rintro ⟨_, hxy⟩
        rw [Prod.mk.injEq] at hxy
        obtain ⟨hx, _⟩ := hxy
        apply hne
        constructor
        · rw [hx, grid_div L i j hL hj]
        · rw [hx, grid_mod L i j hj]
      · rintro ⟨_, hxy⟩
        rw [Prod.mk.injEq] at hxy
        obtain ⟨hx, _⟩ := hxy
        apply hne
        constructor
        · rw [hx, grid_div L i j hL hj]
        · rw [hx, grid_mod L i j hj]
    have houter := sum_map_range_eq_single
      (fun i => ((List.range L).map
        (fun j => (cellEdges L i j).count (x, y))).sum) (x / L) L
      (by
        intro i _ hne
        apply sum_map_range_zero
        intro j hj
        exact hcell_zero i j hj (by rintro ⟨h1, _⟩; exact hne h1))
    rw [houter]
    dsimp only
    by_cases hx0 : x / L < L
    · rw [if_pos hx0]
      have hinner := sum_map_range_eq_single
        (fun j => (cellEdges L (x / L) j).count (x, y)) (x % L) L
        (by
          intro j hj hne
          exact hcell_zero (x / L) j hj (by rintro ⟨_, h2⟩; exact hne h2))
      rw [hinner]
      dsimp only
      rw [if_pos (Nat.mod_lt _ hL)]
      rw [count_cellEdges]
      simp only [Prod.mk.injEq]
      have hxeq : x / L * L + x % L = x := by
        rw [Nat.mul_comm]
        exact Nat.div_add_mod x L
      have hplus : (x / L + 1) * L = x / L * L + L := by ring
      split_ifs <;> omega
    · rw [if_neg hx0]
      have h1 : ¬(x / L + 1 < L ∧ y = x + L) := by
        rintro ⟨h1, _⟩
        omega
      have h2 : ¬(x / L < L ∧ x % L + 1 < L ∧ y = x + 1) := by
        rintro ⟨h2, _⟩
        omega
      rw [if_neg h1, if_neg h2]

lemma term_down_iff (L i j u : Nat) :
    (i + 1 < L ∧ u = i * L + j + L) ↔ (i + 1 < L ∧ u = (i + 1) * L + j) := by
  rw [show (i + 1) * L + j = i * L + j + L from by ring]

lemma term_right_iff (L i j u : Nat) (hi : i < L) :
    (i < L ∧ j + 1 < L ∧ u = i * L + j + 1) ↔
      (j + 1 < L ∧ u = i * L + (j + 1)) := by
  rw [show i * L + (j + 1) = i * L + j + 1 from by ring]
  constructor
  · rintro ⟨_, h2, h3⟩; exact ⟨h2, h3⟩
  · rintro ⟨h2, h3⟩; exact ⟨hi, h2, h3⟩

lemma term_up_iff (L i j u : Nat) (hL : 0 < L) (hi : i < L) (hj : j < L) :
    (u / L + 1 < L ∧ i * L + j = u + L) ↔ (1 ≤ i ∧ u = (i - 1) * L + j) := by
  constructor
  · rintro ⟨_, h2⟩
    have hi1 : 1 ≤ i := by
      by_contra h
      have hi0 : i = 0 := by omega
      subst hi0
      simp only [Nat.zero_mul, Nat.zero_add] at h2
      omega
    have e2 : (i - 1) * L + L = i * L := by
      have h' : i - 1 + 1 = i := by omega
      calc (i - 1) * L + L = ((i - 1) + 1) * L := by ring
      _ = i * L := by rw [h']
    exact ⟨hi1, by omega⟩
  · rintro ⟨hi1, hu⟩
    have e2 : (i - 1) * L + L = i * L := by
      have h' : i - 1 + 1 = i := by omega
      calc (i - 1) * L + L = ((i - 1) + 1) * L := by ring
      _ = i * L := by rw [h']
    subst hu
    have hq : ((i - 1) * L + j) / L = i - 1 := grid_div L (i - 1) j hL hj
    rw [hq]
    exact ⟨by omega, by omega⟩

lemma term_left_iff (L i j u : Nat) (hL : 0 < L) (hi : i < L) (hj : j < L) :
    (u / L < L ∧ u % L + 1 < L ∧ i * L + j = u + 1) ↔
      (1 ≤ j ∧ u = i * L + (j - 1)) := by
  constructor
  · rintro ⟨_, h2, h3⟩
    have hqr := Nat.div_add_mod u L
    have hcomm : (u / L) * L = L * (u / L) := Nat.mul_comm _ _
    have heq : (u / L) * L + (u % L + 1) = i * L + j := by omega
    obtain ⟨hq, hr⟩ := grid_unique h2 hj heq
    exact ⟨by omega, by omega⟩
  · rintro ⟨hj1, hu⟩
    subst hu
    have hq : (i * L + (j - 1)) / L = i := grid_div L i (j - 1) hL (by omega)
    have hr : (i * L + (j - 1)) % L = j - 1 := grid_mod L i (j - 1) (by omega)
    rw [hq, hr]
    exact ⟨hi, by omega, by omega⟩

/-- C5: when `N` is a perfect square and `DELTA` equals 4, the generator
builds exactly the 2D lattice on the `L x L` grid with `L = sqrt N`: `u`
occurs in the neighbor list of vertex `i*L+j` exactly once when it is the
grid position directly above, below, left or right of `(i, j)`, and never
otherwise.  When `N` is not a perfect square or `DELTA` is not 4, the
function reports an error message and terminates the process. -/
theorem generate2D_lattice (n delta : Nat) :
    ((delta = 4 ∧ Nat.sqrt n * Nat.sqrt n = n) →
      ∃ g, Generate2DIsingModelGraph n delta = .ok g ∧
        ∀ i j u, i < Nat.sqrt n → j < Nat.sqrt n →
          (neighbors g (i * Nat.sqrt n + j)).count u =
            if (1 ≤ i ∧ u = (i - 1) * Nat.sqrt n + j) ∨
               (i + 1 < Nat.sqrt n ∧ u = (i + 1) * Nat.sqrt n + j) ∨
               (1 ≤ j ∧ u = i * Nat.sqrt n + (j - 1)) ∨
               (j + 1 < Nat.sqrt n ∧ u = i * Nat.sqrt n + (j + 1))
            then 1 else 0) ∧
    (¬(delta = 4 ∧ Nat.sqrt n * Nat.sqrt n = n) →
      ∃ msg, Generate2DIsingModelGraph n delta = .error msg) := by
  constructor
  · rintro ⟨h4, hsq⟩
    refine ⟨_, generate2D_ok n delta h4 hsq, ?_⟩
    intro i j u hi hj
    have hL : 0 < Nat.sqrt n := by omega
    rw [count_foldl_addEdge, neighbors_initVertices, List.count_nil,
      count_edges2D, count_edges2D,
      grid_div (Nat.sqrt n) i j hL hj, grid_mod (Nat.sqrt n) i j hj]
    rw [if_congr (term_down_iff (Nat.sqrt n) i j u) rfl rfl,
      if_congr (term_right_iff (Nat.sqrt n) i j u hi) rfl rfl,
      if_congr (term_up_iff (Nat.sqrt n) i j u hL hi hj) rfl rfl,
      if_congr (term_left_iff (Nat.sqrt n) i j u hL hi hj) rfl rfl]
    have e1 : (i + 1) * Nat.sqrt n = i * Nat.sqrt n + Nat.sqrt n := by ring
    have e2 : (i - 1) * Nat.sqrt n + Nat.sqrt n = i * Nat.sqrt n ∨ i = 0 := by
      rcases Nat.eq_zero_or_pos i with hi0 | hi0
      · right; exact hi0
      · left
        have h' : i - 1 + 1 = i := by omega
        calc (i - 1) * Nat.sqrt n + Nat.sqrt n
            = ((i - 1) + 1) * Nat.sqrt n := by ring
        _ = i * Nat.sqrt n := by rw [h']
    split_ifs <;> omega
  · intro h
    unfold Generate2DIsingModelGraph
    by_cases h4 : delta = 4
    · refine ⟨"Error: For 2D Ising model N must be a square.", ?_⟩
      rw [if_neg (by omega), if_pos (by tauto)]
    · refine ⟨"Error: For 2D Ising model delta must be 4.", ?_⟩
      rw [if_pos (by omega)]

/-- Concrete instance of `generate2D_lattice`. -/
theorem generate2D_lattice_witness :
    ∃ g, Generate2DIsingModelGraph 4 4 = .ok g ∧
      ∀ i j u, i < Nat.sqrt 4 → j < Nat.sqrt 4 →
        (neighbors g (i * Nat.sqrt 4 + j)).count u =
          if (1 ≤ i ∧ u = (i - 1) * Nat.sqrt 4 + j) ∨
             (i + 1 < Nat.sqrt 4 ∧ u = (i + 1) * Nat.sqrt 4 + j) ∨
             (1 ≤ j ∧ u = i * Nat.sqrt 4 + (j - 1)) ∨
             (j + 1 < Nat.sqrt 4 ∧ u = i * Nat.sqrt 4 + (j + 1))
          then 1 else 0 :=
  (generate2D_lattice 4 4).1 ⟨rfl, by norm_num⟩

end GibbsIsing
